import Mathlib

/-!
# BusPirate I2C bridge (`bp.c`)

A shallow embedding of `bp_i2c_init`, `bp_i2c_write` and `bp_i2c_read`
(the build without `BP_WRITE_AND_READ`) over an explicit operating-system
environment.

* Bytes are natural numbers; a value stored into a `uint8_t` cell after
  arithmetic is reduced `% 256`.
* Every system call the code makes is recorded, with its result, in a
  chronological log. The environment answers each call as an arbitrary
  function of the log so far, which covers every deterministic transport.
* The process-wide `port_fd` and the log form the state `Sys`.
* Calls to the logging helpers (`log_error`, `log_error_errno`) have no
  effect on the transport and are left out.
-/

namespace BusPirate

/-- The terminal attributes `struct termios`: the two line speeds and the
hardware flow-control flag `CRTSCTS` of `c_cflag`, which `bp_i2c_init` sets,
and all remaining settings, which it passes on untouched. -/
structure Termios where
  ispeed : Nat
  ospeed : Nat
  crtscts : Bool
  rest : Nat
deriving DecidableEq, Repr

/-- One system call together with its result. -/
inductive Ev where
  | opened (path : String) (fd : Int)
  | tcgetattr (fd : Int) (ret : Int)
  | tcsetattr (fd : Int) (term : Termios) (ret : Int)
  | write (fd : Int) (bytes : List Nat) (ret : Int)
  | read (fd : Int) (cap : Nat) (res : Option (List Nat))
  | close (fd : Int) (ret : Int)
deriving DecidableEq, Repr

/-- The environment: what each system call answers, given the log of all
earlier calls. A `read` answers `none` on failure (the C call returns a
negative value) or `some d`, the bytes delivered. -/
structure Env where
  openFd : List Ev → String → Int
  getattr : List Ev → Int → Int × Termios
  setattr : List Ev → Int → Termios → Int
  write : List Ev → Int → List Nat → Int
  read : List Ev → Int → Nat → Option (List Nat)
  close : List Ev → Int → Int

/-- Global state: the static `port_fd` and the log of system calls. -/
structure Sys where
  port_fd : Int
  log : List Ev
deriving DecidableEq, Repr

/-- Status of a call that succeeded. -/
def BP_I2C_OK : Int := 0

/-- Status of a call that failed. -/
def BP_I2C_ERROR : Int := -1

/-- The five bytes `BBIO1` that acknowledge binary mode. -/
def BBIO1 : List Nat := [0x42, 0x42, 0x49, 0x4F, 0x31]

/-- The six bytes `I2C1 01 01` that acknowledge I2C mode. -/
def I2C1 : List Nat := [0x49, 0x32, 0x43, 0x31, 0x01, 0x01]

/-- The speed constant `B115200`, by the baud rate it selects. -/
def B115200 : Nat := 115200

/-- A local byte buffer, as a map from index to byte. -/
abbrev Buf := Nat → Nat

/-- Contents of a fresh local array; the code never reads a cell before
writing it. -/
def buf0 : Buf := fun _ => 0

/-- The first `n` bytes of a buffer. -/
def bufTake (b : Buf) (n : Nat) : List Nat := (List.range n).map b

/-- Effect of `memcpy(buf, src, src.length)`, and of a `read` that delivered
`src`, on the buffer. -/
def memcpy (b : Buf) (src : List Nat) : Buf :=
  fun i => if i < src.length then src.getD i 0 else b i

/-- The value a `read` returns for a given answer. -/
def readRet : Option (List Nat) → Int
  | none => -1
  | some d => (d.length : Int)

/-- Buffer after a `read` with capacity `cap`. -/
def readBuf (b : Buf) (cap : Nat) : Option (List Nat) → Buf
  | none => b
  | some d => memcpy b (d.take cap)

/-- `write(fd, bytes, bytes.length)`. -/
def sys_write (E : Env) (s : Sys) (fd : Int) (bytes : List Nat) : Int × Sys :=
  (E.write s.log fd bytes,
   { s with log := s.log ++ [Ev.write fd bytes (E.write s.log fd bytes)] })

/-- `read(fd, buf, cap)`: result, new buffer contents, new state. -/
def sys_read (E : Env) (s : Sys) (fd : Int) (b : Buf) (cap : Nat) : Int × Buf × Sys :=
  (readRet (E.read s.log fd cap),
   readBuf b cap (E.read s.log fd cap),
   { s with log := s.log ++ [Ev.read fd cap (E.read s.log fd cap)] })

/-- `close(fd)`. -/
def sys_close (E : Env) (s : Sys) (fd : Int) : Int × Sys :=
  (E.close s.log fd, { s with log := s.log ++ [Ev.close fd (E.close s.log fd)] })

/-- The `error:` label of `bp_i2c_init`. -/
def init_error (E : Env) (s : Sys) (fd : Int) : Int × Sys :=
  (BP_I2C_ERROR, (sys_close E s fd).2)

/-- `bp_i2c_init(path)`. -/
def bp_i2c_init (E : Env) (s : Sys) (path : String) : Int × Sys :=
  let fd := E.openFd s.log path
  let s1 : Sys := { s with log := s.log ++ [Ev.opened path fd] }
  if fd < 0 then (BP_I2C_ERROR, s1)
  else
    -- ret = tcgetattr(fd, &term);
    let g := E.getattr s1.log fd
    let s2 : Sys := { s1 with log := s1.log ++ [Ev.tcgetattr fd g.1] }
    -- cfsetospeed, cfsetispeed, term.c_cflag &= ~CRTSCTS
    let term : Termios := { g.2 with ospeed := B115200, ispeed := B115200, crtscts := false }
    -- ret = tcsetattr(fd, TCSANOW, &term);
    let r := E.setattr s2.log fd term
    let s3 : Sys := { s2 with log := s2.log ++ [Ev.tcsetattr fd term r] }
    let w1 := sys_write E s3 fd (List.replicate 20 0)
    if w1.1 < 0 then init_error E w1.2 fd
    else if w1.1 ≠ 20 then init_error E w1.2 fd
    else
      let r1 := sys_read E w1.2 fd buf0 5
      if r1.1 < 0 then init_error E r1.2.2 fd
      else if r1.1 ≠ 5 ∨ bufTake r1.2.1 5 ≠ BBIO1 then
        init_error E r1.2.2 fd
      else
        let w2 := sys_write E r1.2.2 fd [0x02, 0x48, 0x60]
        if w2.1 < 0 then init_error E w2.2 fd
        else if w2.1 ≠ 3 then init_error E w2.2 fd
        else
          let r2 := sys_read E w2.2 fd r1.2.1 6
          if r2.1 < 0 then init_error E r2.2.2 fd
          else if r2.1 ≠ 6 ∨ bufTake r2.2.1 6 ≠ I2C1 then
            init_error E r2.2.2 fd
          else
            (BP_I2C_OK, { r2.2.2 with port_fd := fd })

/-- The body of the `do { ... } while (len);` loop of `bp_i2c_write`, up to
and including the last `read`: the buffer and the state after one pass. The
four results `ret` are overwritten without being looked at. -/
def write_pass (E : Env) (s : Sys) (buf : Buf) (data : List Nat) (len : Nat) : Buf × Sys :=
  let l := min 15 len
  let buf1 := Function.update buf 0 (0x10 ||| (l &&& 0x0f))
  let w1 := sys_write E s s.port_fd (bufTake buf1 1)
  let r1 := sys_read E w1.2 s.port_fd buf1 16
  let w2 := sys_write E r1.2.2 s.port_fd (data.take l)
  let r2 := sys_read E w2.2 s.port_fd r1.2.1 16
  (r2.2.1, r2.2.2)

/-- The `do { ... } while (len);` loop of `bp_i2c_write`: one pass, then
`data += l; len -= l;` and another round while `len` is non-zero. -/
def write_loop (E : Env) (s : Sys) (buf : Buf) (data : List Nat) (len : Nat) : Sys :=
  let p := write_pass E s buf data len
  if len - min 15 len ≠ 0 then
    write_loop E p.2 p.1 (data.drop (min 15 len)) (len - min 15 len)
  else p.2
termination_by len
decreasing_by omega

/-- `bp_i2c_write(dev_id, reg_addr, data, len)`; `data` is the caller's array
and `len` the count passed. -/
def bp_i2c_write (E : Env) (s : Sys) (dev_id reg_addr : Nat) (data : List Nat) (len : Nat) :
    Int × Sys :=
  if len > 126 then (BP_I2C_ERROR, s)
  else
    let buf := memcpy buf0 [0x02, 0x11, 0xAA, 0xBB]
    let buf := Function.update buf 2 ((dev_id <<< 1) % 256)
    let buf := Function.update buf 3 reg_addr
    let w := sys_write E s s.port_fd (bufTake buf 4)
    if w.1 < 0 ∨ w.1 ≠ 4 then (BP_I2C_ERROR, w.2)
    else
      let r := sys_read E w.2 s.port_fd buf 16
      if r.1 < 0 ∨ r.1 ≠ 4 then (BP_I2C_ERROR, r.2.2)
      else
        let s1 := write_loop E r.2.2 r.2.1 data len
        let w3 := sys_write E s1 s.port_fd [0x03]
        if w3.1 < 0 ∨ w3.1 ≠ 1 then (BP_I2C_ERROR, w3.2)
        else
          -- `buf` is never inspected after this last read
          let r3 := sys_read E w3.2 s.port_fd buf0 16
          if r3.1 < 0 ∨ r3.1 ≠ 1 then (BP_I2C_ERROR, r3.2.2)
          else (BP_I2C_OK, r3.2.2)

/-- The `for (; len; len--) { ... }` loop of `bp_i2c_read`. Returns the bytes
stored through the advancing `data` pointer, in order, and the state. -/
def read_loop (E : Env) (s : Sys) (buf : Buf) : Nat → List Nat × Sys
  | 0 => ([], s)
  | len + 1 =>
    let w := sys_write E s s.port_fd [0x04, 0x06]
    let r := sys_read E w.2 s.port_fd buf 16
    let rest := read_loop E r.2.2 r.2.1 len
    (r.2.1 0 :: rest.1, rest.2)

/-- `bp_i2c_read(dev_id, reg_addr, data, len)`: the status, the bytes stored
into `data[0..]` in order, and the state. -/
def bp_i2c_read (E : Env) (s : Sys) (dev_id reg_addr : Nat) (len : Nat) :
    Int × List Nat × Sys :=
  let buf := memcpy buf0 [0x02, 0x11, 0xAA, 0xBB, 0x03]
  let buf := Function.update buf 2 ((dev_id <<< 1) % 256)
  let buf := Function.update buf 3 reg_addr
  let w := sys_write E s s.port_fd (bufTake buf 5)
  if w.1 < 0 ∨ w.1 ≠ 5 then (BP_I2C_ERROR, [], w.2)
  else
    let r := sys_read E w.2 s.port_fd buf 16
    if r.1 < 0 ∨ r.1 ≠ 5 then (BP_I2C_ERROR, [], r.2.2)
    else
      let buf := memcpy r.2.1 [0x02, 0x10, 0xAA]
      let buf := Function.update buf 2 (((dev_id <<< 1) ||| 1) % 256)
      let w2 := sys_write E r.2.2 s.port_fd (bufTake buf 3)
      if w2.1 < 0 ∨ w2.1 ≠ 3 then (BP_I2C_ERROR, [], w2.2)
      else
        let r2 := sys_read E w2.2 s.port_fd buf 16
        if r2.1 < 0 ∨ r2.1 ≠ 3 then (BP_I2C_ERROR, [], r2.2.2)
        else
          -- the `while (len);` that follows the `for` body finds `len == 0` and does nothing
          let lp := read_loop E r2.2.2 r2.2.1 len
          let w3 := sys_write E lp.2 s.port_fd [0x04, 0x07, 0x03]
          if w3.1 < 0 ∨ w3.1 ≠ 3 then (BP_I2C_ERROR, lp.1, w3.2)
          else
            -- `buf` is never inspected after this last read
            let r3 := sys_read E w3.2 s.port_fd buf0 16
            if r3.1 < 0 ∨ r3.1 ≠ 3 then (BP_I2C_ERROR, lp.1, r3.2.2)
            else (BP_I2C_OK, lp.1, r3.2.2)

/-! ## Observations on the log -/

/-- The system calls made between two states. -/
def callEvents (before after : Sys) : List Ev := after.log.drop before.log.length

/-- Is the event a `write`? -/
def Ev.isWrite : Ev → Bool
  | Ev.write _ _ _ => true
  | _ => false

/-- Is the event a `read`? -/
def Ev.isRead : Ev → Bool
  | Ev.read _ _ _ => true
  | _ => false

/-- The byte strings passed to `write`, in order. -/
def writesOf : List Ev → List (List Nat)
  | [] => []
  | Ev.write _ bytes _ :: t => bytes :: writesOf t
  | _ :: t => writesOf t

/-- Number of single-byte-read commands `04 06` written in a log. -/
def readCmds : List Ev → Nat
  | [] => 0
  | Ev.write _ bytes _ :: t => (if bytes = [0x04, 0x06] then 1 else 0) + readCmds t
  | _ :: t => readCmds t

/-- The `read` calls of a log: capacity asked for and answer, in order. -/
def readsOf : List Ev → List (Nat × Option (List Nat))
  | [] => []
  | Ev.read _ cap res :: t => (cap, res) :: readsOf t
  | _ :: t => readsOf t

/-- The request/response automaton: `phase b l` runs over a log that may
hold only writes and reads, where a write is due when the flag is `true` and
a read when it is `false`. It answers `none` when an event comes out of turn
and otherwise which kind is due next. -/
def phase : Bool → List Ev → Option Bool
  | b, [] => some b
  | true, Ev.write _ _ _ :: t => phase false t
  | false, Ev.read _ _ _ :: t => phase true t
  | _, _ :: _ => none

/-- The byte strings the loop of `bp_i2c_write` passes to `write`, following
the loop pass by pass. -/
def loopWrites (data : List Nat) (len : Nat) : List (List Nat) :=
  [0x10 ||| (min 15 len &&& 0x0f)] :: data.take (min 15 len) ::
    (if len - min 15 len ≠ 0 then loopWrites (data.drop (min 15 len)) (len - min 15 len)
     else [])
termination_by len
decreasing_by omega

/-- The system calls made by the loop of `bp_i2c_write`. -/
def loopTrace (E : Env) (s : Sys) (buf : Buf) (data : List Nat) (len : Nat) : List Ev :=
  (write_loop E s buf data len).log.drop s.log.length

/-- The system calls made by the loop of `bp_i2c_read`. -/
def readLoopTrace (E : Env) (s : Sys) (buf : Buf) (len : Nat) : List Ev :=
  (read_loop E s buf len).2.log.drop s.log.length

/-! ## Properties of a transport -/

/-- The transport accepts every write on `fd` in full. -/
def AcceptsWrites (E : Env) (fd : Int) : Prop :=
  ∀ (h : List Ev) (bytes : List Nat), E.write h fd bytes = (bytes.length : Int)

/-- Right after a write of `bytes` on `fd`, whatever came before and whatever
that write returned, a `read` of up to 16 bytes delivers exactly `n` bytes. -/
def AcksFrame (E : Env) (fd : Int) (bytes : List Nat) (n : Nat) : Prop :=
  ∀ (h : List Ev) (r : Int),
    ∃ d, E.read (h ++ [Ev.write fd bytes r]) fd 16 = some d ∧ d.length = n

/-- Counting from the state `s` on, the transport answers the single-byte-read
command that follows `i` earlier ones by exactly the one byte `b i`. -/
def AnswersReads (E : Env) (s : Sys) (b : Nat → Nat) : Prop :=
  ∀ (t : List Ev) (r : Int),
    E.read (s.log ++ t ++ [Ev.write s.port_fd [0x04, 0x06] r]) s.port_fd 16 =
      some [b (readCmds t)]

/-- The request/response discipline of one call with status `rc` and system
calls `ops`: only writes and reads occur, the first is a write, neighbours are
of different kinds, a call that returns `BP_I2C_OK` ends on a read, and a call
can end on a write only by failing on a write that was not accepted in full. -/
def RequestResponse (rc : Int) (ops : List Ev) : Prop :=
  (∀ e ∈ ops, e.isWrite = true ∨ e.isRead = true) ∧
  (∃ e, ops.head? = some e ∧ e.isWrite = true) ∧
  List.Chain' (fun a b => a.isWrite ≠ b.isWrite) ops ∧
  (rc = BP_I2C_OK → ∃ e, ops.getLast? = some e ∧ e.isRead = true) ∧
  (∀ fd bytes a, ops.getLast? = some (Ev.write fd bytes a) →
    rc = BP_I2C_ERROR ∧ a ≠ (bytes.length : Int))

/-- Every frame of at most 16 bytes is acknowledged by as many bytes as it
has. -/
def AcksEveryFrame (E : Env) (fd : Int) : Prop :=
  ∀ bytes : List Nat, bytes.length ≤ 16 → AcksFrame E fd bytes bytes.length

/-! ## Mock adapters -/

/-- The most recent event of a log, if it is a `write`: the bytes written. -/
def lastWrite (h : List Ev) : Option (List Nat) :=
  match h.getLast? with
  | some (Ev.write _ bytes _) => some bytes
  | _ => none

/-- A mock adapter that accepts every write in full and answers every read
with an echo of the frame just written. -/
def echoEnv : Env where
  openFd := fun _ _ => 3
  getattr := fun _ _ => (0, { ispeed := 0, ospeed := 0, crtscts := true, rest := 0 })
  setattr := fun _ _ _ => 0
  write := fun _ _ bytes => (bytes.length : Int)
  read := fun h _ _ => lastWrite h
  close := fun _ _ => 0

/-- A mock adapter like `echoEnv` that answers the i-th single-byte-read
command with the i-th byte of `bs`. -/
def readerEnv (bs : List Nat) : Env :=
  { echoEnv with
    read := fun h _ _ =>
      match lastWrite h with
      | some bytes =>
        if bytes = [0x04, 0x06] then some [bs.getD (readCmds h.dropLast) 0] else some bytes
      | none => none }

/-- A mock adapter that acknowledges the address-select and the stop frame
of a write but answers no bulk-write command and no chunk payload, and
refuses the payload `25`. -/
def brokenChunkEnv : Env :=
  { echoEnv with
    write := fun _ _ bytes => if bytes = [0x25] then -1 else (bytes.length : Int)
    read := fun h _ _ =>
      match lastWrite h with
      | some bytes => if bytes.length = 4 ∨ bytes = [0x03] then some bytes else none
      | none => none }

/-- A mock adapter like `echoEnv` whose single-byte-read commands are never
answered: the `read` after `04 06` fails. -/
def noDataEnv : Env :=
  { echoEnv with
    read := fun h _ _ =>
      match lastWrite h with
      | some bytes => if bytes = [0x04, 0x06] then none else some bytes
      | none => none }

/-- A mock adapter that negotiates correctly (`BBIO1`, then `I2C1 01 01`) on
a terminal whose `tcgetattr` and `tcsetattr` both return `attrRet`. -/
def negotiatingEnv (attrRet : Int) : Env :=
  { echoEnv with
    getattr := fun _ _ => (attrRet, { ispeed := 0, ospeed := 0, crtscts := true, rest := 0 })
    setattr := fun _ _ _ => attrRet
    read := fun h _ _ =>
      match lastWrite h with
      | some bytes =>
        if bytes = [0x02, 0x48, 0x60] then some I2C1 else some BBIO1
      | none => none }

/-- A state with an open port and an empty log. -/
def sys0 : Sys := { port_fd := 3, log := [] }

/-- The device path used in the examples. -/
def ttyPath : String := "/dev/ttyUSB0"

/-- A state with no connection recorded and an empty log. -/
def sysClosed : Sys := { port_fd := -1, log := [] }

/-! ## Basic facts about the system-call wrappers -/

@[simp] theorem sys_write_fst (E : Env) (s : Sys) (fd : Int) (bytes : List Nat) :
    (sys_write E s fd bytes).1 = E.write s.log fd bytes := rfl

@[simp] theorem sys_write_log (E : Env) (s : Sys) (fd : Int) (bytes : List Nat) :
    (sys_write E s fd bytes).2.log = s.log ++ [Ev.write fd bytes (E.write s.log fd bytes)] := rfl

@[simp] theorem sys_write_port (E : Env) (s : Sys) (fd : Int) (bytes : List Nat) :
    (sys_write E s fd bytes).2.port_fd = s.port_fd := rfl

@[simp] theorem sys_read_fst (E : Env) (s : Sys) (fd : Int) (b : Buf) (cap : Nat) :
    (sys_read E s fd b cap).1 = readRet (E.read s.log fd cap) := rfl

@[simp] theorem sys_read_buf (E : Env) (s : Sys) (fd : Int) (b : Buf) (cap : Nat) :
    (sys_read E s fd b cap).2.1 = readBuf b cap (E.read s.log fd cap) := rfl

@[simp] theorem sys_read_log (E : Env) (s : Sys) (fd : Int) (b : Buf) (cap : Nat) :
    (sys_read E s fd b cap).2.2.log = s.log ++ [Ev.read fd cap (E.read s.log fd cap)] := rfl

@[simp] theorem sys_read_port (E : Env) (s : Sys) (fd : Int) (b : Buf) (cap : Nat) :
    (sys_read E s fd b cap).2.2.port_fd = s.port_fd := rfl

theorem bufTake_one (b : Buf) : bufTake b 1 = [b 0] := rfl

theorem bufTake_three (b : Buf) : bufTake b 3 = [b 0, b 1, b 2] := rfl

theorem bufTake_four (b : Buf) : bufTake b 4 = [b 0, b 1, b 2, b 3] := rfl

theorem bufTake_five (b : Buf) : bufTake b 5 = [b 0, b 1, b 2, b 3, b 4] := rfl

theorem bufTake_six (b : Buf) : bufTake b 6 = [b 0, b 1, b 2, b 3, b 4, b 5] := rfl

/-- The loop, unfolded once. -/
theorem write_loop_eq (E : Env) (s : Sys) (buf : Buf) (data : List Nat) (len : Nat) :
    write_loop E s buf data len =
      (if len - min 15 len ≠ 0 then
        write_loop E (write_pass E s buf data len).2 (write_pass E s buf data len).1
          (data.drop (min 15 len)) (len - min 15 len)
      else (write_pass E s buf data len).2) := by
  rw [write_loop]

/-- A single pass: with at most 15 bytes the loop body runs once. -/
theorem write_loop_single (E : Env) (s : Sys) (buf : Buf) (data : List Nat) (len : Nat)
    (h : len ≤ 15) :
    write_loop E s buf data len = (write_pass E s buf data len).2 := by
  have h1 : min 15 len = len := by omega
  rw [write_loop_eq, h1]
  simp

/-- The four system calls of one pass. -/
theorem write_pass_log (E : Env) (s : Sys) (buf : Buf) (data : List Nat) (len : Nat) :
    ∃ (a b : Int) (x y : Option (List Nat)),
      (write_pass E s buf data len).2.log =
        s.log ++ [Ev.write s.port_fd [0x10 ||| (min 15 len &&& 0x0f)] a, Ev.read s.port_fd 16 x,
          Ev.write s.port_fd (data.take (min 15 len)) b, Ev.read s.port_fd 16 y] :=
  ⟨_, _, _, _, by
    simp only [write_pass, sys_read_log, sys_write_log, bufTake_one, Function.update_same,
      List.append_assoc]
    rfl⟩

theorem write_pass_port (E : Env) (s : Sys) (buf : Buf) (data : List Nat) (len : Nat) :
    (write_pass E s buf data len).2.port_fd = s.port_fd := rfl

theorem loopWrites_eq (data : List Nat) (len : Nat) :
    loopWrites data len =
      [0x10 ||| (min 15 len &&& 0x0f)] :: data.take (min 15 len) ::
        (if len - min 15 len ≠ 0 then loopWrites (data.drop (min 15 len)) (len - min 15 len)
         else []) := by
  rw [loopWrites]

/-! ## Observations distribute over concatenation -/

theorem writesOf_append (a b : List Ev) : writesOf (a ++ b) = writesOf a ++ writesOf b := by
  induction a with
  | nil => rfl
  | cons e t ih => cases e <;> simp [writesOf, ih]

theorem readsOf_append (a b : List Ev) : readsOf (a ++ b) = readsOf a ++ readsOf b := by
  induction a with
  | nil => rfl
  | cons e t ih => cases e <;> simp [readsOf, ih]

theorem readCmds_append (a b : List Ev) : readCmds (a ++ b) = readCmds a + readCmds b := by
  induction a with
  | nil => simp [readCmds]
  | cons e t ih => cases e <;> simp [readCmds, ih, Nat.add_assoc]

theorem phase_append (a b : List Ev) (f : Bool) :
    phase f (a ++ b) = (phase f a).bind (fun g => phase g b) := by
  induction a generalizing f with
  | nil => simp [phase]
  | cons e t ih => cases e <;> cases f <;> simp [phase, ih]

theorem callEvents_append (s r : Sys) (t : List Ev) (h : r.log = s.log ++ t) :
    callEvents s r = t := by
  simp [callEvents, h]

@[simp] theorem isWrite_write (fd : Int) (bytes : List Nat) (ret : Int) :
    (Ev.write fd bytes ret).isWrite = true := rfl

@[simp] theorem isWrite_read (fd : Int) (cap : Nat) (res : Option (List Nat)) :
    (Ev.read fd cap res).isWrite = false := rfl

@[simp] theorem isRead_read (fd : Int) (cap : Nat) (res : Option (List Nat)) :
    (Ev.read fd cap res).isRead = true := rfl

@[simp] theorem isRead_write (fd : Int) (bytes : List Nat) (ret : Int) :
    (Ev.write fd bytes ret).isRead = false := rfl

/-- What the automaton guarantees, in plain terms: only writes and reads
occur, neighbours are of different kinds, the first event is of the kind that
was due and the last of the kind opposite to the one due at the end. -/
theorem phase_sound (l : List Ev) : ∀ (f g : Bool), phase f l = some g →
    (∀ e ∈ l, e.isWrite = true ∨ e.isRead = true) ∧
    List.Chain' (fun a b => a.isWrite ≠ b.isWrite) l ∧
    (∀ e, l.head? = some e → e.isWrite = f) ∧
    (∀ e, l.getLast? = some e → e.isWrite = !g) := by
  induction l with
  | nil => intro f g _; simp
  | cons e t ih =>
    intro f g h
    cases e <;> cases f <;> simp [phase] at h
    case write.true fd bytes ret =>
      obtain ⟨h1, h2, h3, h4⟩ := ih false g h
      refine ⟨?_, ?_, ?_, ?_⟩
      · intro e he
        rcases List.mem_cons.mp he with rfl | he
        · simp
        · exact h1 e he
      · rw [List.chain'_cons']
        refine ⟨?_, h2⟩
        intro y hy
        have := h3 y (by simpa using hy)
        simp [this]
      · simp
      · intro e he
        cases t with
        | nil =>
          simp [phase] at h
          simp at he
          subst he; subst h
          simp
        | cons x xs =>
          apply h4
          simpa [List.getLast?_cons_cons] using he
    case read.false fd cap res =>
      obtain ⟨h1, h2, h3, h4⟩ := ih true g h
      refine ⟨?_, ?_, ?_, ?_⟩
      · intro e he
        rcases List.mem_cons.mp he with rfl | he
        · simp [Ev.isRead]
        · exact h1 e he
      · rw [List.chain'_cons']
        refine ⟨?_, h2⟩
        intro y hy
        have := h3 y (by simpa using hy)
        simp [this]
      · simp
      · intro e he
        cases t with
        | nil =>
          simp [phase] at h
          simp at he
          subst he; subst h
          simp
        | cons x xs =>
          apply h4
          simpa [List.getLast?_cons_cons] using he

/-- The trace of the loop: it extends the log by the writes `loopWrites`, in
request/response order, and leaves `port_fd` alone. -/
theorem write_loop_trace (E : Env) : ∀ (len : Nat) (s : Sys) (buf : Buf) (data : List Nat),
    ∃ t, (write_loop E s buf data len).log = s.log ++ t ∧
      (write_loop E s buf data len).port_fd = s.port_fd ∧
      writesOf t = loopWrites data len ∧ phase true t = some true ∧ t ≠ [] := by
  intro len
  induction len using Nat.strong_induction_on with
  | _ len ih =>
    intro s buf data
    obtain ⟨a, b, x, y, hp⟩ := write_pass_log E s buf data len
    rw [write_loop_eq, loopWrites_eq]
    split_ifs with hc
    · obtain ⟨t, h1, h2, h3, h4, _⟩ := ih (len - min 15 len) (by omega)
        (write_pass E s buf data len).2 (write_pass E s buf data len).1 (data.drop (min 15 len))
      refine ⟨[Ev.write s.port_fd [0x10 ||| (min 15 len &&& 0x0f)] a, Ev.read s.port_fd 16 x,
          Ev.write s.port_fd (data.take (min 15 len)) b, Ev.read s.port_fd 16 y] ++ t,
        ?_, ?_, ?_, ?_, ?_⟩
      · rw [h1, hp, List.append_assoc]
      · rw [h2, write_pass_port]
      · simp [writesOf, h3]
      · simp [phase, h4]
      · simp
    · refine ⟨_, hp, write_pass_port _ _ _ _ _, ?_, ?_, ?_⟩
      · simp [writesOf]
      · simp [phase]
      · simp
theorem write_loop_struct (E : Env) (s : Sys) (buf : Buf) (data : List Nat) (len : Nat) :
    write_loop E s buf data len =
      { port_fd := s.port_fd, log := s.log ++ loopTrace E s buf data len } := by
  obtain ⟨t, h1, h2, _⟩ := write_loop_trace E len s buf data
  have e : loopTrace E s buf data len = t := by simp [loopTrace, h1]
  rw [e, ← h1, ← h2]

theorem writesOf_loopTrace (E : Env) (s : Sys) (buf : Buf) (data : List Nat) (len : Nat) :
    writesOf (loopTrace E s buf data len) = loopWrites data len := by
  obtain ⟨t, h1, _, h3, _⟩ := write_loop_trace E len s buf data
  have e : loopTrace E s buf data len = t := by simp [loopTrace, h1]
  rw [e, h3]

theorem phase_loopTrace (E : Env) (s : Sys) (buf : Buf) (data : List Nat) (len : Nat) :
    phase true (loopTrace E s buf data len) = some true := by
  obtain ⟨t, h1, _, _, h4, _⟩ := write_loop_trace E len s buf data
  have e : loopTrace E s buf data len = t := by simp [loopTrace, h1]
  rw [e, h4]

theorem and_fifteen (n : Nat) (h : n ≤ 15) : n &&& 0x0f = n := by
  interval_cases n <;> rfl

/-- The writes of the loop are the payload cut into chunks of 15 bytes, each
chunk announced by its bulk-write command byte. -/
theorem loopWrites_chunks : ∀ (len : Nat) (data : List Nat), 1 ≤ len → len ≤ data.length →
    ∃ cs : List (List Nat),
      loopWrites data len = cs.flatMap (fun c => [[0x10 ||| c.length], c]) ∧
      cs.length = (len + 14) / 15 ∧ cs.flatten = data.take len ∧
      (∀ c ∈ cs, 1 ≤ c.length ∧ c.length ≤ 15) ∧ (∀ c ∈ cs.dropLast, c.length = 15) := by
  intro len
  induction len using Nat.strong_induction_on with
  | _ len ih =>
    intro data h1 hd
    have hl : (data.take (min 15 len)).length = min 15 len := by
      rw [List.length_take]; omega
    rw [loopWrites_eq]
    split_ifs with hc
    · have h15 : min 15 len = 15 := by omega
      obtain ⟨cs, e1, e2, e3, e4, e5⟩ := ih (len - min 15 len) (by omega)
        (data.drop (min 15 len)) (by omega) (by rw [List.length_drop]; omega)
      have hne : cs ≠ [] := by
        intro h0
        rw [h0] at e2
        simp at e2
        omega
      refine ⟨data.take (min 15 len) :: cs, ?_, ?_, ?_, ?_, ?_⟩
      · rw [e1, List.flatMap_cons, hl, and_fifteen _ (by omega)]
        rfl
      · rw [List.length_cons, e2]; omega
      · rw [List.flatten_cons, e3, h15, ← List.take_add]
        congr 1
        omega
      · intro c hc'
        rcases List.mem_cons.mp hc' with rfl | hc'
        · rw [hl]; omega
        · exact e4 c hc'
      · intro c hc'
        rw [List.dropLast_cons_of_ne_nil hne] at hc'
        rcases List.mem_cons.mp hc' with rfl | hc'
        · rw [hl]; exact h15
        · exact e5 c hc'
    · have hlen : min 15 len = len := by omega
      refine ⟨[data.take len], ?_, ?_, ?_, ?_, ?_⟩
      · have hl2 : (data.take len).length = len := by rw [List.length_take]; omega
        rw [hlen, and_fifteen _ (by omega)]
        simp [hl2]
      · simp; omega
      · simp
      · intro c hc'
        simp at hc'
        subst hc'
        rw [List.length_take]; omega
      · simp

/-! ## The mock adapters have the properties asked of a transport -/

theorem lastWrite_concat (h : List Ev) (fd : Int) (bytes : List Nat) (r : Int) :
    lastWrite (h ++ [Ev.write fd bytes r]) = some bytes := by
  simp [lastWrite]

theorem echoEnv_accepts (fd : Int) : AcceptsWrites echoEnv fd := fun _ _ => rfl

theorem echoEnv_acks (fd : Int) : AcksEveryFrame echoEnv fd := by
  intro bytes _ h r
  exact ⟨bytes, lastWrite_concat h fd bytes r, rfl⟩

/-- After a write that the transport acknowledges by `n` bytes, the `read`
returns `n`. -/
theorem sys_read_acked (E : Env) (fd : Int) (bytes : List Nat) (n : Nat)
    (hack : AcksFrame E fd bytes n) (s : Sys) (buf : Buf) :
    (sys_read E (sys_write E s fd bytes).2 fd buf 16).1 = (n : Int) := by
  obtain ⟨d, hd, hn⟩ := hack s.log (E.write s.log fd bytes)
  simp [hd, readRet, hn]

theorem write_addr_frame (v r : Nat) :
    bufTake (Function.update (Function.update (memcpy buf0 [0x02, 0x11, 0xAA, 0xBB]) 2 v) 3 r) 4 =
      [0x02, 0x11, v, r] := by
  simp [bufTake_four, Function.update, memcpy]

/-! ## `bp_i2c_write` -/

/-- C1: a write of more than 126 bytes (127 in particular) returns
`BP_I2C_ERROR` and performs no transport operation: the state is unchanged and
the call adds no system call, neither a write nor a read, to the log. -/
theorem bp_i2c_write_too_long (E : Env) (s : Sys) (dev_id reg_addr : Nat) (data : List Nat)
    (len : Nat) (h : len > 126) :
    (bp_i2c_write E s dev_id reg_addr data len).1 = BP_I2C_ERROR ∧
    (bp_i2c_write E s dev_id reg_addr data len).2 = s ∧
    callEvents s (bp_i2c_write E s dev_id reg_addr data len).2 = [] := by
  simp [bp_i2c_write, h, callEvents]

/-- Witness for C1 at `len = 127`. -/
theorem bp_i2c_write_too_long_witness :
    (127 : Nat) > 126 ∧
    (bp_i2c_write echoEnv sys0 0x77 0xF4 (List.replicate 127 0) 127).1 = BP_I2C_ERROR ∧
    (bp_i2c_write echoEnv sys0 0x77 0xF4 (List.replicate 127 0) 127).2 = sys0 ∧
    callEvents sys0 (bp_i2c_write echoEnv sys0 0x77 0xF4 (List.replicate 127 0) 127).2 = [] :=
  ⟨by decide, bp_i2c_write_too_long echoEnv sys0 0x77 0xF4 (List.replicate 127 0) 127 (by decide)⟩


theorem bp_i2c_write_good (E : Env) (s : Sys) (dev_id reg_addr : Nat) (data : List Nat)
    (len : Nat) (h126 : len ≤ 126)
    (hw : AcceptsWrites E s.port_fd) (hack : AcksEveryFrame E s.port_fd) :
    (bp_i2c_write E s dev_id reg_addr data len).1 = BP_I2C_OK ∧
    ∃ t x y, (bp_i2c_write E s dev_id reg_addr data len).2.log =
        s.log ++ (Ev.write s.port_fd [0x02, 0x11, (dev_id <<< 1) % 256, reg_addr] 4 ::
          Ev.read s.port_fd 16 x :: t ++
          [Ev.write s.port_fd [0x03] 1, Ev.read s.port_fd 16 y]) ∧
      writesOf t = loopWrites data len ∧ phase true t = some true := by
  have hn : ¬ len > 126 := by omega
  simp only [bp_i2c_write, if_neg hn, write_addr_frame, sys_write, sys_read, write_loop_struct,
    hw _ _]
  obtain ⟨d, hd, hdl⟩ := hack [0x02, 0x11, (dev_id <<< 1) % 256, reg_addr] (by simp) s.log
    (([0x02, 0x11, (dev_id <<< 1) % 256, reg_addr] : List Nat).length : Int)
  rw [hd]
  generalize hT : loopTrace E _ _ data len = t
  have t3 : writesOf t = loopWrites data len := hT ▸ writesOf_loopTrace E _ _ data len
  have t4 : phase true t = some true := hT ▸ phase_loopTrace E _ _ data len
  obtain ⟨d3, hd3, hdl3⟩ := hack [0x03] (by simp)
    (s.log ++ [Ev.write s.port_fd [0x02, 0x11, (dev_id <<< 1) % 256, reg_addr]
      (([0x02, 0x11, (dev_id <<< 1) % 256, reg_addr] : List Nat).length : Int)] ++
      [Ev.read s.port_fd 16 (some d)] ++ t) (([0x03] : List Nat).length : Int)
  rw [hd3]
  simp at hdl hdl3
  exact ⟨by simp [readRet, hdl, hdl3, BP_I2C_OK], t, some d, some d3,
    by simp [readRet, hdl, hdl3], t3, t4⟩

/-- C2: for a payload of 1 to 126 bytes, on a transport that accepts every
write in full and acknowledges every frame by its length, the byte strings
written are the address-select frame `02 11 (dev_id<<1 mod 256) reg_addr`,
then for each chunk its command byte `0x10 | chunk_len` and the chunk itself,
then the stop frame `03`; there are `ceil(len/15)` chunks, each of 1 to 15
bytes and all but the last of 15, and together they are `data[0..len)`. -/
theorem bp_i2c_write_frames (E : Env) (s : Sys) (dev_id reg_addr : Nat) (data : List Nat)
    (len : Nat) (h1 : 1 ≤ len) (h126 : len ≤ 126) (hd : len ≤ data.length)
    (hw : AcceptsWrites E s.port_fd) (hack : AcksEveryFrame E s.port_fd) :
    ∃ cs : List (List Nat),
      writesOf (callEvents s (bp_i2c_write E s dev_id reg_addr data len).2) =
        [0x02, 0x11, (dev_id <<< 1) % 256, reg_addr] ::
          cs.flatMap (fun c => [[0x10 ||| c.length], c]) ++ [[0x03]] ∧
      cs.length = (len + 14) / 15 ∧ cs.flatten = data.take len ∧
      (∀ c ∈ cs, 1 ≤ c.length ∧ c.length ≤ 15) ∧ (∀ c ∈ cs.dropLast, c.length = 15) := by
  obtain ⟨_, t, x, y, hlog, ht, _⟩ := bp_i2c_write_good E s dev_id reg_addr data len h126 hw hack
  obtain ⟨cs, c1, c2, c3, c4, c5⟩ := loopWrites_chunks len data h1 hd
  refine ⟨cs, ?_, c2, c3, c4, c5⟩
  rw [callEvents_append _ _ _ hlog]
  simp [writesOf, writesOf_append, ht, c1]

/-- Witness for C2: 31 bytes, three chunks, against the echoing mock. -/
theorem bp_i2c_write_frames_witness :
    AcceptsWrites echoEnv sys0.port_fd ∧ AcksEveryFrame echoEnv sys0.port_fd ∧
    ∃ cs : List (List Nat),
      writesOf (callEvents sys0 (bp_i2c_write echoEnv sys0 0x77 0xF4 (List.range 31) 31).2) =
        [0x02, 0x11, (0x77 <<< 1) % 256, 0xF4] ::
          cs.flatMap (fun c => [[0x10 ||| c.length], c]) ++ [[0x03]] ∧
      cs.length = (31 + 14) / 15 ∧ cs.flatten = (List.range 31).take 31 ∧
      (∀ c ∈ cs, 1 ≤ c.length ∧ c.length ≤ 15) ∧ (∀ c ∈ cs.dropLast, c.length = 15) :=
  ⟨echoEnv_accepts _, echoEnv_acks _,
    bp_i2c_write_frames echoEnv sys0 0x77 0xF4 (List.range 31) 31 (by decide) (by decide)
      (by decide) (echoEnv_accepts _) (echoEnv_acks _)⟩


theorem phase_kinds (t : List Ev) :
    (phase true t = some true →
      t.map Ev.isWrite = (List.replicate (writesOf t).length [true, false]).flatten) ∧
    (phase false t = some true →
      t.map Ev.isWrite = false :: (List.replicate (writesOf t).length [true, false]).flatten) := by
  induction t with
  | nil => simp [phase, writesOf]
  | cons e t ih =>
    cases e <;> simp [phase, writesOf]
    case write fd bytes ret =>
      intro h
      rw [ih.2 h]
      simp [List.replicate_succ]
    case read fd cap res =>
      intro h
      exact ih.1 h

theorem getLast?_frame (a b c : Ev) (t : List Ev) :
    ([a] ++ ([b] ++ (t ++ [c]))).getLast? = some c := by
  rw [← List.append_assoc, ← List.append_assoc]
  exact List.getLast?_concat _

theorem bp_i2c_write_phase (E : Env) (s : Sys) (dev_id reg_addr : Nat) (data : List Nat)
    (len : Nat) (h126 : len ≤ 126) :
    ∃ t g, (bp_i2c_write E s dev_id reg_addr data len).2.log = s.log ++ t ∧
      t ≠ [] ∧ phase true t = some g ∧
      ((bp_i2c_write E s dev_id reg_addr data len).1 = BP_I2C_OK → g = true) ∧
      (g = false → (bp_i2c_write E s dev_id reg_addr data len).1 = BP_I2C_ERROR ∧
        ∃ fd bytes a, t.getLast? = some (Ev.write fd bytes a) ∧ a ≠ (bytes.length : Int)) := by
  have hn : ¬ len > 126 := by omega
  simp only [bp_i2c_write, if_neg hn, write_addr_frame, sys_write, sys_read, write_loop_struct]
  generalize hT : loopTrace E _ _ data len = t
  have t4 : phase true t = some true := hT ▸ phase_loopTrace E _ _ data len
  split_ifs with c1 c2 c3 c4 <;> simp only [List.append_assoc] at *
  · refine ⟨_, false, rfl, by simp, by simp [phase], by simp [BP_I2C_OK, BP_I2C_ERROR],
      fun _ => ⟨by simp, _, _, _, rfl, ?_⟩⟩
    simp only [List.length_cons, List.length_nil]
    omega
  · exact ⟨_, true, rfl, by simp, by simp [phase], by simp, by simp⟩
  · refine ⟨_, false, rfl, by simp, by simp [phase, phase_append, t4],
      by simp [BP_I2C_OK, BP_I2C_ERROR],
      fun _ => ⟨by simp, s.port_fd, [0x03], _, getLast?_frame _ _ _ _, ?_⟩⟩
    simp only [List.length_cons, List.length_nil]
    omega
  · exact ⟨_, true, rfl, by simp, by simp [phase, phase_append, t4], by simp, by simp⟩
  · exact ⟨_, true, rfl, by simp, by simp [phase, phase_append, t4], by simp, by simp⟩

/-! ## `bp_i2c_read` -/


theorem read_loop_trace (E : Env) : ∀ (len : Nat) (s : Sys) (buf : Buf),
    ∃ t, (read_loop E s buf len).2.log = s.log ++ t ∧
      (read_loop E s buf len).2.port_fd = s.port_fd ∧
      writesOf t = List.replicate len [0x04, 0x06] ∧ phase true t = some true := by
  intro len
  induction len with
  | zero => intro s buf; exact ⟨[], by simp [read_loop], rfl, rfl, rfl⟩
  | succ n ih =>
    intro s buf
    obtain ⟨t, h1, h2, h3, h4⟩ := ih
      (sys_read E (sys_write E s s.port_fd [0x04, 0x06]).2 s.port_fd buf 16).2.2
      (sys_read E (sys_write E s s.port_fd [0x04, 0x06]).2 s.port_fd buf 16).2.1
    refine ⟨Ev.write s.port_fd [0x04, 0x06] (E.write s.log s.port_fd [0x04, 0x06]) ::
      Ev.read s.port_fd 16 (E.read (s.log ++ [Ev.write s.port_fd [0x04, 0x06]
        (E.write s.log s.port_fd [0x04, 0x06])]) s.port_fd 16) :: t, ?_, ?_, ?_, ?_⟩
    · simp only [read_loop]
      rw [h1]
      simp
    · simp only [read_loop]
      rw [h2]
      simp
    · simp [writesOf, h3, List.replicate_succ]
    · simp [phase, h4]

theorem read_loop_struct (E : Env) (s : Sys) (buf : Buf) (len : Nat) :
    (read_loop E s buf len).2 =
      { port_fd := s.port_fd, log := s.log ++ readLoopTrace E s buf len } := by
  obtain ⟨t, h1, h2, _⟩ := read_loop_trace E len s buf
  have e : readLoopTrace E s buf len = t := by simp [readLoopTrace, h1]
  rw [e, ← h1, ← h2]

theorem writesOf_readLoopTrace (E : Env) (s : Sys) (buf : Buf) (len : Nat) :
    writesOf (readLoopTrace E s buf len) = List.replicate len [0x04, 0x06] := by
  obtain ⟨t, h1, _, h3, _⟩ := read_loop_trace E len s buf
  have e : readLoopTrace E s buf len = t := by simp [readLoopTrace, h1]
  rw [e, h3]

theorem phase_readLoopTrace (E : Env) (s : Sys) (buf : Buf) (len : Nat) :
    phase true (readLoopTrace E s buf len) = some true := by
  obtain ⟨t, h1, _, _, h4⟩ := read_loop_trace E len s buf
  have e : readLoopTrace E s buf len = t := by simp [readLoopTrace, h1]
  rw [e, h4]

theorem read_addr_frame (v r : Nat) :
    bufTake (Function.update (Function.update (memcpy buf0 [0x02, 0x11, 0xAA, 0xBB, 0x03]) 2 v)
      3 r) 5 = [0x02, 0x11, v, r, 0x03] := by
  simp [bufTake_five, Function.update, memcpy]

theorem read_addr2_frame (b : Buf) (v : Nat) :
    bufTake (Function.update (memcpy b [0x02, 0x10, 0xAA]) 2 v) 3 = [0x02, 0x10, v] := by
  simp [bufTake_three, Function.update, memcpy]

theorem getLast?_frame2 (a b c d e : Ev) (t : List Ev) :
    ([a] ++ ([b] ++ ([c] ++ ([d] ++ (t ++ [e]))))).getLast? = some e := by
  rw [← List.append_assoc, ← List.append_assoc, ← List.append_assoc, ← List.append_assoc]
  exact List.getLast?_concat _

theorem bp_i2c_read_phase (E : Env) (s : Sys) (dev_id reg_addr : Nat) (len : Nat) :
    ∃ t g, (bp_i2c_read E s dev_id reg_addr len).2.2.log = s.log ++ t ∧
      t ≠ [] ∧ phase true t = some g ∧
      ((bp_i2c_read E s dev_id reg_addr len).1 = BP_I2C_OK → g = true) ∧
      (g = false → (bp_i2c_read E s dev_id reg_addr len).1 = BP_I2C_ERROR ∧
        ∃ fd bytes a, t.getLast? = some (Ev.write fd bytes a) ∧ a ≠ (bytes.length : Int)) := by
  simp only [bp_i2c_read, read_addr_frame, read_addr2_frame, sys_write, sys_read,
    read_loop_struct]
  generalize hT : readLoopTrace E _ _ len = t
  have t4 : phase true t = some true := hT ▸ phase_readLoopTrace E _ _ len
  split_ifs with c1 c2 c3 c4 c5 c6 <;> simp only [List.append_assoc] at *
  · refine ⟨_, false, rfl, by simp, by simp [phase], by simp [BP_I2C_OK, BP_I2C_ERROR],
      fun _ => ⟨by simp, _, _, _, rfl, ?_⟩⟩
    simp only [List.length_cons, List.length_nil]
    omega
  · exact ⟨_, true, rfl, by simp, by simp [phase], by simp, by simp⟩
  · refine ⟨_, false, rfl, by simp, by simp [phase], by simp [BP_I2C_OK, BP_I2C_ERROR],
      fun _ => ⟨by simp, _, _, _, rfl, ?_⟩⟩
    simp only [List.length_cons, List.length_nil]
    omega
  · exact ⟨_, true, rfl, by simp, by simp [phase], by simp, by simp⟩
  · refine ⟨_, false, rfl, by simp, by simp [phase, phase_append, t4],
      by simp [BP_I2C_OK, BP_I2C_ERROR],
      fun _ => ⟨by simp, s.port_fd, [0x04, 0x07, 0x03], _, getLast?_frame2 _ _ _ _ _ _, ?_⟩⟩
    simp only [List.length_cons, List.length_nil]
    omega
  · exact ⟨_, true, rfl, by simp, by simp [phase, phase_append, t4], by simp, by simp⟩
  · exact ⟨_, true, rfl, by simp, by simp [phase, phase_append, t4], by simp, by simp⟩

/-! ## Request/response discipline -/


theorem requestResponse_of_phase (rc : Int) (t : List Ev) (g : Bool) (hne : t ≠ [])
    (hp : phase true t = some g) (hok : rc = BP_I2C_OK → g = true)
    (hf : g = false → rc = BP_I2C_ERROR ∧
      ∃ fd bytes a, t.getLast? = some (Ev.write fd bytes a) ∧ a ≠ (bytes.length : Int)) :
    RequestResponse rc t := by
  obtain ⟨h1, h2, h3, h4⟩ := phase_sound t true g hp
  refine ⟨h1, ?_, h2, ?_, ?_⟩
  · cases t with
    | nil => exact absurd rfl hne
    | cons e t' => exact ⟨e, rfl, h3 e rfl⟩
  · intro h
    have hg := hok h
    subst hg
    obtain ⟨e, he⟩ : ∃ e, t.getLast? = some e := by
      cases hl : t.getLast? with
      | none => exact absurd (List.getLast?_eq_none_iff.mp hl) hne
      | some e => exact ⟨e, rfl⟩
    refine ⟨e, he, ?_⟩
    have hw := h4 e he
    have hm := h1 e (List.mem_of_getLast?_eq_some he)
    simpa [hw] using hm
  · intro fd bytes a hl
    have hw := h4 _ hl
    have hg : g = false := by simpa using hw
    obtain ⟨hrc, fd', bytes', a', hl', hne'⟩ := hf hg
    rw [hl] at hl'
    injection hl' with hl'
    injection hl' with e1 e2 e3
    subst e2; subst e3
    exact ⟨hrc, hne'⟩

/-- C9: within one call of `bp_i2c_write` (with `len ≤ 126`) or of
`bp_i2c_read` (any length), whatever the transport answers, the system calls
are writes and reads only, begin with a write and strictly alternate, so no two
writes come without a read between them; a call that returns `BP_I2C_OK` ends
on a read, and a call ends on a write only when that write, one of the checked
frames, was not accepted in full and the call returns `BP_I2C_ERROR`. -/
theorem request_response (E : Env) (s : Sys) (dev_id reg_addr : Nat) (data : List Nat)
    (len rlen : Nat) (h126 : len ≤ 126) :
    RequestResponse (bp_i2c_write E s dev_id reg_addr data len).1
      (callEvents s (bp_i2c_write E s dev_id reg_addr data len).2) ∧
    RequestResponse (bp_i2c_read E s dev_id reg_addr rlen).1
      (callEvents s (bp_i2c_read E s dev_id reg_addr rlen).2.2) := by
  constructor
  · obtain ⟨t, g, hl, hne, hp, hok, hf⟩ := bp_i2c_write_phase E s dev_id reg_addr data len h126
    rw [callEvents_append _ _ _ hl]
    exact requestResponse_of_phase _ t g hne hp hok hf
  · obtain ⟨t, g, hl, hne, hp, hok, hf⟩ := bp_i2c_read_phase E s dev_id reg_addr rlen
    rw [callEvents_append _ _ _ hl]
    exact requestResponse_of_phase _ t g hne hp hok hf

/-- Witness for C9: a three-chunk write and a long read against a transport
that fails inside the loops. -/
theorem request_response_witness :
    (31 : Nat) ≤ 126 ∧
    RequestResponse (bp_i2c_write brokenChunkEnv sys0 0x77 0xF4 (List.range 31) 31).1
      (callEvents sys0 (bp_i2c_write brokenChunkEnv sys0 0x77 0xF4 (List.range 31) 31).2) ∧
    RequestResponse (bp_i2c_read brokenChunkEnv sys0 0x77 0xF4 70000).1
      (callEvents sys0 (bp_i2c_read brokenChunkEnv sys0 0x77 0xF4 70000).2.2) :=
  ⟨by decide, request_response brokenChunkEnv sys0 0x77 0xF4 (List.range 31) 31 70000 (by decide)⟩

/-! ## Data returned by `bp_i2c_read` -/


theorem read_loop_data (E : Env) (fd : Int) (b : Nat → Nat) (base : List Ev)
    (hb : ∀ (t : List Ev) (r : Int),
      E.read (base ++ t ++ [Ev.write fd [0x04, 0x06] r]) fd 16 = some [b (readCmds t)]) :
    ∀ (n : Nat) (buf : Buf) (t0 : List Ev),
      (read_loop E { port_fd := fd, log := base ++ t0 } buf n).1 =
        (List.range' (readCmds t0) n).map b := by
  intro n
  induction n with
  | zero => intro buf t0; simp [read_loop]
  | succ n ih =>
    intro buf t0
    simp only [read_loop, sys_write, sys_read]
    rw [hb t0, List.append_assoc (base ++ t0), List.append_assoc base, ih]
    simp [readCmds_append, readCmds, readBuf, memcpy, List.range'_succ]

theorem bp_i2c_read_good (E : Env) (s : Sys) (dev_id reg_addr : Nat) (len : Nat) (b : Nat → Nat)
    (hw : AcceptsWrites E s.port_fd)
    (ha1 : AcksFrame E s.port_fd [0x02, 0x11, (dev_id <<< 1) % 256, reg_addr, 0x03] 5)
    (ha2 : AcksFrame E s.port_fd [0x02, 0x10, ((dev_id <<< 1) ||| 1) % 256] 3)
    (ha3 : AcksFrame E s.port_fd [0x04, 0x07, 0x03] 3)
    (hb : AnswersReads E s b) :
    (bp_i2c_read E s dev_id reg_addr len).1 = BP_I2C_OK ∧
    (bp_i2c_read E s dev_id reg_addr len).2.1 = (List.range len).map b ∧
    ∃ t x y z, (bp_i2c_read E s dev_id reg_addr len).2.2.log =
        s.log ++ (Ev.write s.port_fd [0x02, 0x11, (dev_id <<< 1) % 256, reg_addr, 0x03] 5 ::
          Ev.read s.port_fd 16 x ::
          Ev.write s.port_fd [0x02, 0x10, ((dev_id <<< 1) ||| 1) % 256] 3 ::
          Ev.read s.port_fd 16 y :: t ++
          [Ev.write s.port_fd [0x04, 0x07, 0x03] 3, Ev.read s.port_fd 16 z]) ∧
      writesOf t = List.replicate len [0x04, 0x06] ∧ phase true t = some true := by
  simp only [bp_i2c_read, read_addr_frame, read_addr2_frame, sys_write, sys_read,
    read_loop_struct, hw _ _]
  obtain ⟨d1, hd1, hl1⟩ := ha1 s.log
    (([0x02, 0x11, (dev_id <<< 1) % 256, reg_addr, 0x03] : List Nat).length : Int)
  rw [hd1]
  obtain ⟨d2, hd2, hl2⟩ := ha2 (s.log ++ [Ev.write s.port_fd
    [0x02, 0x11, (dev_id <<< 1) % 256, reg_addr, 0x03]
    (([0x02, 0x11, (dev_id <<< 1) % 256, reg_addr, 0x03] : List Nat).length : Int)] ++
      [Ev.read s.port_fd 16 (some d1)])
    (([0x02, 0x10, ((dev_id <<< 1) ||| 1) % 256] : List Nat).length : Int)
  rw [hd2]
  have hdata := read_loop_data E s.port_fd b s.log hb len
    (readBuf (Function.update (memcpy (readBuf (Function.update (Function.update
      (memcpy buf0 [0x02, 0x11, 0xAA, 0xBB, 0x03]) 2 ((dev_id <<< 1) % 256)) 3 reg_addr) 16
      (some d1)) [0x02, 0x10, 0xAA]) 2 (((dev_id <<< 1) ||| 1) % 256)) 16 (some d2))
    ([Ev.write s.port_fd [0x02, 0x11, (dev_id <<< 1) % 256, reg_addr, 0x03]
      (([0x02, 0x11, (dev_id <<< 1) % 256, reg_addr, 0x03] : List Nat).length : Int)] ++
      [Ev.read s.port_fd 16 (some d1)] ++
      [Ev.write s.port_fd [0x02, 0x10, ((dev_id <<< 1) ||| 1) % 256]
        (([0x02, 0x10, ((dev_id <<< 1) ||| 1) % 256] : List Nat).length : Int)] ++
      [Ev.read s.port_fd 16 (some d2)])
  simp only [← List.append_assoc] at hdata
  rw [hdata]
  generalize hT : readLoopTrace E _ _ len = t
  have t3 : writesOf t = List.replicate len [0x04, 0x06] := hT ▸ writesOf_readLoopTrace E _ _ len
  have t4 : phase true t = some true := hT ▸ phase_readLoopTrace E _ _ len
  obtain ⟨d3, hd3, hl3⟩ := ha3 (s.log ++ [Ev.write s.port_fd
    [0x02, 0x11, (dev_id <<< 1) % 256, reg_addr, 0x03]
    (([0x02, 0x11, (dev_id <<< 1) % 256, reg_addr, 0x03] : List Nat).length : Int)] ++
      [Ev.read s.port_fd 16 (some d1)] ++
      [Ev.write s.port_fd [0x02, 0x10, ((dev_id <<< 1) ||| 1) % 256]
        (([0x02, 0x10, ((dev_id <<< 1) ||| 1) % 256] : List Nat).length : Int)] ++
      [Ev.read s.port_fd 16 (some d2)] ++ t) (([0x04, 0x07, 0x03] : List Nat).length : Int)
  rw [hd3]
  exact ⟨by simp [readRet, hl1, hl2, hl3, BP_I2C_OK],
    by simp [readRet, hl1, hl2, hl3, readCmds, List.range_eq_range'],
    t, some d1, some d2, some d3, by simp [readRet, hl1, hl2, hl3], t3, t4⟩


theorem readerEnv_accepts (bs : List Nat) (fd : Int) : AcceptsWrites (readerEnv bs) fd :=
  fun _ _ => rfl

theorem readerEnv_acks (bs : List Nat) (fd : Int) (bytes : List Nat) (h : bytes ≠ [0x04, 0x06]) :
    AcksFrame (readerEnv bs) fd bytes bytes.length := by
  intro hist r
  refine ⟨bytes, ?_, rfl⟩
  simp [readerEnv, lastWrite_concat, h]

theorem readerEnv_answers (bs : List Nat) :
    AnswersReads (readerEnv bs) sys0 (fun i => bs.getD i 0) := by
  intro t r
  simp [readerEnv, lastWrite_concat, sys0]

/-- C5: for every length `len` (so for every 16-bit `len ≥ 1`), on a transport
that accepts every write in full, acknowledges the two address-select writes
by 5 and 3 bytes and the end-of-read frame by 3 bytes, and answers the i-th
single-byte-read command by the one byte `b i`, `bp_i2c_read` returns
`BP_I2C_OK`, stores `b 0, ..., b (len-1)` in order, writes the address-select
frame carrying `dev_id<<1 mod 256` and `reg_addr`, the one carrying
`(dev_id<<1 | 1) mod 256`, then `len` commands `04 06` and the end-of-read
frame `04 07 03`, and follows each of these `len + 3` writes by one read. -/
theorem bp_i2c_read_ok (E : Env) (s : Sys) (dev_id reg_addr : Nat) (len : Nat) (b : Nat → Nat)
    (hw : AcceptsWrites E s.port_fd)
    (ha1 : AcksFrame E s.port_fd [0x02, 0x11, (dev_id <<< 1) % 256, reg_addr, 0x03] 5)
    (ha2 : AcksFrame E s.port_fd [0x02, 0x10, ((dev_id <<< 1) ||| 1) % 256] 3)
    (ha3 : AcksFrame E s.port_fd [0x04, 0x07, 0x03] 3)
    (hb : AnswersReads E s b) :
    (bp_i2c_read E s dev_id reg_addr len).1 = BP_I2C_OK ∧
    (bp_i2c_read E s dev_id reg_addr len).2.1 = (List.range len).map b ∧
    writesOf (callEvents s (bp_i2c_read E s dev_id reg_addr len).2.2) =
      [0x02, 0x11, (dev_id <<< 1) % 256, reg_addr, 0x03] ::
      [0x02, 0x10, ((dev_id <<< 1) ||| 1) % 256] ::
      List.replicate len [0x04, 0x06] ++ [[0x04, 0x07, 0x03]] ∧
    (callEvents s (bp_i2c_read E s dev_id reg_addr len).2.2).map Ev.isWrite =
      (List.replicate (len + 3) [true, false]).flatten := by
  obtain ⟨hrc, hout, t, x, y, z, hlog, t3, t4⟩ :=
    bp_i2c_read_good E s dev_id reg_addr len b hw ha1 ha2 ha3 hb
  refine ⟨hrc, hout, ?_, ?_⟩
  · rw [callEvents_append _ _ _ hlog]
    simp [writesOf, writesOf_append, t3]
  · rw [callEvents_append _ _ _ hlog]
    have hp : phase true (Ev.write s.port_fd [0x02, 0x11, (dev_id <<< 1) % 256, reg_addr, 0x03] 5 ::
          Ev.read s.port_fd 16 x ::
          Ev.write s.port_fd [0x02, 0x10, ((dev_id <<< 1) ||| 1) % 256] 3 ::
          Ev.read s.port_fd 16 y :: t ++
          [Ev.write s.port_fd [0x04, 0x07, 0x03] 3, Ev.read s.port_fd 16 z]) = some true := by
      simp [phase, phase_append, t4]
    rw [(phase_kinds _).1 hp]
    simp [writesOf, writesOf_append, t3]

/-- Witness for C5: `dev_id = 0x77`, `reg_addr = 0xFD`, `len = 2` and data
bytes `55 60` give back `[0x55, 0x60]`. -/
theorem bp_i2c_read_ok_witness :
    (bp_i2c_read (readerEnv [0x55, 0x60]) sys0 0x77 0xFD 2).1 = BP_I2C_OK ∧
    (bp_i2c_read (readerEnv [0x55, 0x60]) sys0 0x77 0xFD 2).2.1 = [0x55, 0x60] ∧
    writesOf (callEvents sys0 (bp_i2c_read (readerEnv [0x55, 0x60]) sys0 0x77 0xFD 2).2.2) =
      [[0x02, 0x11, 0xEE, 0xFD, 0x03], [0x02, 0x10, 0xEF], [0x04, 0x06], [0x04, 0x06],
        [0x04, 0x07, 0x03]] ∧
    (callEvents sys0 (bp_i2c_read (readerEnv [0x55, 0x60]) sys0 0x77 0xFD 2).2.2).map
      Ev.isWrite = [true, false, true, false, true, false, true, false, true, false] :=
  bp_i2c_read_ok (readerEnv [0x55, 0x60]) sys0 0x77 0xFD 2 (fun i => [0x55, 0x60].getD i 0)
    (readerEnv_accepts _ _) (readerEnv_acks _ _ _ (by decide))
    (readerEnv_acks _ _ _ (by decide)) (readerEnv_acks _ _ _ (by decide))
    (readerEnv_answers _)

/-! ## The one-byte write scenario -/

theorem loopWrites_one (x : Nat) : loopWrites [x] 1 = [[0x11], [x]] := by
  rw [loopWrites_eq]
  simp

/-- C4, as stated, fails: against the echoing mock the address-select frame of
the scenario does not carry the byte `76`; `0x77 << 1` is `0xEE`. -/
theorem bp_i2c_write_scenario_address_byte :
    writesOf (callEvents sys0 (bp_i2c_write echoEnv sys0 0x77 0xF4 [0x25] 1).2) ≠
      [[0x02, 0x11, 0x76, 0xF4], [0x11], [0x25], [0x03]] := by
  simp [bp_i2c_write, write_loop_single, write_pass, write_addr_frame, bufTake_one, sys_write,
    sys_read, echoEnv, sys0, lastWrite, readRet, BP_I2C_OK, BP_I2C_ERROR, callEvents, writesOf]

/-- C4, amended: `bp_i2c_write(0x77, 0xF4, [0x25], 1)`, on a transport that
accepts every write and acknowledges every frame by its length, returns
`BP_I2C_OK` and writes `02 11 EE F4`, then `11`, then `25`, then `03`, each
write followed by one read. -/
theorem bp_i2c_write_scenario (E : Env) (s : Sys)
    (hw : AcceptsWrites E s.port_fd) (hack : AcksEveryFrame E s.port_fd) :
    (bp_i2c_write E s 0x77 0xF4 [0x25] 1).1 = BP_I2C_OK ∧
    writesOf (callEvents s (bp_i2c_write E s 0x77 0xF4 [0x25] 1).2) =
      [[0x02, 0x11, 0xEE, 0xF4], [0x11], [0x25], [0x03]] ∧
    (callEvents s (bp_i2c_write E s 0x77 0xF4 [0x25] 1).2).map Ev.isWrite =
      [true, false, true, false, true, false, true, false] := by
  obtain ⟨hrc, t, x, y, hlog, t3, t4⟩ :=
    bp_i2c_write_good E s 0x77 0xF4 [0x25] 1 (by decide) hw hack
  rw [loopWrites_one] at t3
  have hw : writesOf (Ev.write s.port_fd [0x02, 0x11, (0x77 <<< 1) % 256, 0xF4] 4 ::
      Ev.read s.port_fd 16 x :: t ++ [Ev.write s.port_fd [0x03] 1, Ev.read s.port_fd 16 y]) =
      [[0x02, 0x11, 0xEE, 0xF4], [0x11], [0x25], [0x03]] := by
    simp [writesOf, writesOf_append, t3]
  have hp : phase true (Ev.write s.port_fd [0x02, 0x11, (0x77 <<< 1) % 256, 0xF4] 4 ::
      Ev.read s.port_fd 16 x :: t ++ [Ev.write s.port_fd [0x03] 1, Ev.read s.port_fd 16 y]) =
      some true := by
    simp [phase, phase_append, t4]
  refine ⟨hrc, ?_, ?_⟩
  · rw [callEvents_append _ _ _ hlog, hw]
  · rw [callEvents_append _ _ _ hlog, (phase_kinds _).1 hp, hw]
    rfl

/-- Witness for the amended C4, against the echoing mock. -/
theorem bp_i2c_write_scenario_witness :
    AcceptsWrites echoEnv sys0.port_fd ∧ AcksEveryFrame echoEnv sys0.port_fd ∧
    (bp_i2c_write echoEnv sys0 0x77 0xF4 [0x25] 1).1 = BP_I2C_OK ∧
    writesOf (callEvents sys0 (bp_i2c_write echoEnv sys0 0x77 0xF4 [0x25] 1).2) =
      [[0x02, 0x11, 0xEE, 0xF4], [0x11], [0x25], [0x03]] ∧
    (callEvents sys0 (bp_i2c_write echoEnv sys0 0x77 0xF4 [0x25] 1).2).map Ev.isWrite =
      [true, false, true, false, true, false, true, false] :=
  ⟨echoEnv_accepts _, echoEnv_acks _,
    bp_i2c_write_scenario echoEnv sys0 (echoEnv_accepts _) (echoEnv_acks _)⟩

/-! ## `bp_i2c_init` -/


theorem bufTake_read5 (b : Buf) (d : List Nat) (h : d.length = 5) :
    bufTake (readBuf b 5 (some d)) 5 = d := by
  match d, h with
  | [a0, a1, a2, a3, a4], _ => simp [bufTake_five, readBuf, memcpy]

theorem bufTake_read6 (b : Buf) (d : List Nat) (h : d.length = 6) :
    bufTake (readBuf b 6 (some d)) 6 = d := by
  match d, h with
  | [a0, a1, a2, a3, a4, a5], _ => simp [bufTake_six, readBuf, memcpy]

theorem readRet_nonneg (x : Option (List Nat)) (h : ¬ readRet x < 0) : ∃ d, x = some d := by
  cases x with
  | none => simp [readRet] at h
  | some d => exact ⟨d, rfl⟩

/-- The three outcomes of `bp_i2c_init` once the path is open and the writes
go through, by the two answers `a1` and `a2` of the adapter. -/
theorem bp_i2c_init_cases (E : Env) (s : Sys) (path : String)
    (hopen : 0 ≤ E.openFd s.log path) (hw : AcceptsWrites E (E.openFd s.log path)) :
    ∃ (pre : List Ev) (a1 a2 : Option (List Nat)),
      writesOf pre = [] ∧ readsOf pre = [] ∧ pre.length = 3 ∧
      (∀ e ∈ pre, ∀ x, e ≠ Ev.close (E.openFd s.log path) x) ∧
      bp_i2c_init E s path =
        if a1 = some BBIO1 then
          if a2 = some I2C1 then
            (BP_I2C_OK, { port_fd := E.openFd s.log path,
                          log := s.log ++ (pre ++
                            [Ev.write (E.openFd s.log path) (List.replicate 20 0) 20,
                             Ev.read (E.openFd s.log path) 5 a1,
                             Ev.write (E.openFd s.log path) [0x02, 0x48, 0x60] 3,
                             Ev.read (E.openFd s.log path) 6 a2]) })
          else
            init_error E { port_fd := s.port_fd,
                           log := s.log ++ (pre ++
                             [Ev.write (E.openFd s.log path) (List.replicate 20 0) 20,
                              Ev.read (E.openFd s.log path) 5 a1,
                              Ev.write (E.openFd s.log path) [0x02, 0x48, 0x60] 3,
                              Ev.read (E.openFd s.log path) 6 a2]) } (E.openFd s.log path)
        else
          init_error E { port_fd := s.port_fd,
                         log := s.log ++ (pre ++
                           [Ev.write (E.openFd s.log path) (List.replicate 20 0) 20,
                            Ev.read (E.openFd s.log path) 5 a1]) } (E.openFd s.log path) := by
  have hfd : ¬ E.openFd s.log path < 0 := by omega
  simp only [bp_i2c_init, if_neg hfd, sys_write, sys_read, hw _ _, List.append_assoc]
  generalize E.openFd s.log path = fd
  generalize E.getattr _ fd = g
  generalize E.setattr _ fd _ = sr
  generalize E.read _ fd 5 = a1
  generalize E.read _ fd 6 = a2
  refine ⟨[Ev.opened path fd, Ev.tcgetattr fd g.1, Ev.tcsetattr fd
      { ispeed := B115200, ospeed := B115200, crtscts := false, rest := g.2.rest } sr],
    a1, a2, rfl, rfl, rfl, by simp, ?_⟩
  have e20 : ((List.replicate 20 0 : List Nat).length : Int) = 20 := by simp
  have e3 : (([0x02, 0x48, 0x60] : List Nat).length : Int) = 3 := rfl
  simp only [e20, e3]
  by_cases h1 : a1 = some BBIO1
  · subst h1
    have r1 : readRet (some BBIO1) = 5 := rfl
    have b1 : bufTake (readBuf buf0 5 (some BBIO1)) 5 = BBIO1 := bufTake_read5 _ _ rfl
    by_cases h2 : a2 = some I2C1
    · subst h2
      have r2 : readRet (some I2C1) = 6 := rfl
      have b2 : bufTake (readBuf (readBuf buf0 5 (some BBIO1)) 6 (some I2C1)) 6 = I2C1 :=
        bufTake_read6 _ _ rfl
      simp [r1, b1, r2, b2]
    · have hbad : readRet a2 < 0 ∨ (¬ readRet a2 < 0 ∧
          (readRet a2 ≠ 6 ∨ bufTake (readBuf (readBuf buf0 5 (some BBIO1)) 6 a2) 6 ≠ I2C1)) := by
        by_cases hneg : readRet a2 < 0
        · exact Or.inl hneg
        · refine Or.inr ⟨hneg, ?_⟩
          obtain ⟨d, rfl⟩ := readRet_nonneg a2 hneg
          by_cases hl : d.length = 6
          · right
            rw [bufTake_read6 _ _ hl]
            intro hd
            exact h2 (by rw [hd])
          · left
            simp only [readRet]
            omega
      rcases hbad with hneg | ⟨hneg, hb⟩
      · simp [r1, b1, hneg, h2]
      · simp [r1, b1, hneg, hb, h2]
  · have hbad : readRet a1 < 0 ∨ (¬ readRet a1 < 0 ∧
        (readRet a1 ≠ 5 ∨ bufTake (readBuf buf0 5 a1) 5 ≠ BBIO1)) := by
      by_cases hneg : readRet a1 < 0
      · exact Or.inl hneg
      · refine Or.inr ⟨hneg, ?_⟩
        obtain ⟨d, rfl⟩ := readRet_nonneg a1 hneg
        by_cases hl : d.length = 5
        · right
          rw [bufTake_read5 _ _ hl]
          intro hd
          exact h1 (by rw [hd])
        · left
          simp only [readRet]
          omega
    rcases hbad with hneg | ⟨hneg, hb⟩
    · simp [hneg, h1]
    · simp [hneg, hb, h1]

theorem init_error_fst (E : Env) (s : Sys) (fd : Int) : (init_error E s fd).1 = BP_I2C_ERROR :=
  rfl

theorem init_error_port (E : Env) (s : Sys) (fd : Int) :
    (init_error E s fd).2.port_fd = s.port_fd := rfl

theorem init_error_log (E : Env) (s : Sys) (fd : Int) :
    (init_error E s fd).2.log = s.log ++ [Ev.close fd (E.close s.log fd)] := rfl

theorem callEvents_init_error (E : Env) (s : Sys) (p : Int) (t : List Ev) (fd : Int) :
    callEvents s (init_error E { port_fd := p, log := s.log ++ t } fd).2 =
      t ++ [Ev.close fd (E.close (s.log ++ t) fd)] := by
  simp [callEvents, init_error_log]

theorem ok_ne_error : BP_I2C_ERROR ≠ BP_I2C_OK := by decide

/-- C7: for a path that opens and a transport that accepts every write in
full, `bp_i2c_init` returns `BP_I2C_OK` exactly when its reads were answered
by the five bytes `BBIO1` and then the six bytes `I2C1 01 01`. In that case it
has written 20 zero bytes and then `02 48 60`, records the opened descriptor
in `port_fd` and has not closed it. In every other case (an answer that fails,
has another length or differs in a byte) it returns `BP_I2C_ERROR`, leaves
`port_fd` unchanged and its last system call is `close` on the opened
descriptor; it has written the 20 zero bytes, and `02 48 60` only after a
correct first answer. -/
theorem bp_i2c_init_negotiation (E : Env) (s : Sys) (path : String)
    (hopen : 0 ≤ E.openFd s.log path) (hw : AcceptsWrites E (E.openFd s.log path)) :
    ((bp_i2c_init E s path).1 = BP_I2C_OK ↔
      readsOf (callEvents s (bp_i2c_init E s path).2) = [(5, some BBIO1), (6, some I2C1)]) ∧
    ((bp_i2c_init E s path).1 = BP_I2C_OK →
      (bp_i2c_init E s path).2.port_fd = E.openFd s.log path ∧
      writesOf (callEvents s (bp_i2c_init E s path).2) =
        [List.replicate 20 0, [0x02, 0x48, 0x60]] ∧
      ∀ x, Ev.close (E.openFd s.log path) x ∉ callEvents s (bp_i2c_init E s path).2) ∧
    ((bp_i2c_init E s path).1 ≠ BP_I2C_OK →
      (bp_i2c_init E s path).1 = BP_I2C_ERROR ∧
      (bp_i2c_init E s path).2.port_fd = s.port_fd ∧
      (∃ x, (callEvents s (bp_i2c_init E s path).2).getLast? =
        some (Ev.close (E.openFd s.log path) x)) ∧
      writesOf (callEvents s (bp_i2c_init E s path).2) =
        List.replicate 20 0 ::
          (if (readsOf (callEvents s (bp_i2c_init E s path).2)).head? = some (5, some BBIO1)
           then [[0x02, 0x48, 0x60]] else [])) := by
  obtain ⟨pre, a1, a2, hpw, hpr, _, hcl, heq⟩ := bp_i2c_init_cases E s path hopen hw
  rw [heq]
  by_cases h1 : a1 = some BBIO1
  · by_cases h2 : a2 = some I2C1
    · simp only [if_pos h1, if_pos h2]
      refine ⟨?_, ?_, ?_⟩
      · simp [callEvents, readsOf_append, hpr, readsOf, h1, h2]
      · intro _
        refine ⟨trivial, ?_, ?_⟩
        · simp [callEvents, writesOf_append, hpw, writesOf]
        · intro x hx
          simp only [callEvents, List.drop_left, List.mem_append] at hx
          rcases hx with hx | hx
          · exact hcl _ hx x rfl
          · simp at hx
      · intro h
        exact absurd rfl h
    · simp only [if_pos h1, if_neg h2, callEvents_init_error]
      refine ⟨?_, ?_, ?_⟩
      · simp [init_error_fst, readsOf_append, hpr, readsOf, h2, ok_ne_error]
      · intro h
        exact absurd h ok_ne_error
      · intro _
        refine ⟨rfl, rfl, ⟨_, List.getLast?_concat _⟩, ?_⟩
        simp [writesOf_append, readsOf_append, hpw, hpr, writesOf, readsOf, h1]
  · simp only [if_neg h1, callEvents_init_error]
    refine ⟨?_, ?_, ?_⟩
    · simp [init_error_fst, readsOf_append, hpr, readsOf, ok_ne_error]
    · intro h
      exact absurd h ok_ne_error
    · intro _
      refine ⟨rfl, rfl, ⟨_, List.getLast?_concat _⟩, ?_⟩
      simp [writesOf_append, readsOf_append, hpw, hpr, writesOf, readsOf, h1]



theorem negotiatingEnv_accepts (r : Int) (fd : Int) : AcceptsWrites (negotiatingEnv r) fd :=
  fun _ _ => rfl

/-- Witness for C7: a terminal that opens as descriptor 3 and an adapter that
negotiates correctly. -/
theorem bp_i2c_init_negotiation_witness :
    ((bp_i2c_init (negotiatingEnv 0) sysClosed ttyPath).1 = BP_I2C_OK ↔
      readsOf (callEvents sysClosed (bp_i2c_init (negotiatingEnv 0) sysClosed ttyPath).2) =
        [(5, some BBIO1), (6, some I2C1)]) ∧
    ((bp_i2c_init (negotiatingEnv 0) sysClosed ttyPath).1 = BP_I2C_OK →
      (bp_i2c_init (negotiatingEnv 0) sysClosed ttyPath).2.port_fd =
        (negotiatingEnv 0).openFd sysClosed.log ttyPath ∧
      writesOf (callEvents sysClosed (bp_i2c_init (negotiatingEnv 0) sysClosed ttyPath).2) =
        [List.replicate 20 0, [0x02, 0x48, 0x60]] ∧
      ∀ x, Ev.close ((negotiatingEnv 0).openFd sysClosed.log ttyPath) x ∉
        callEvents sysClosed (bp_i2c_init (negotiatingEnv 0) sysClosed ttyPath).2) ∧
    ((bp_i2c_init (negotiatingEnv 0) sysClosed ttyPath).1 ≠ BP_I2C_OK →
      (bp_i2c_init (negotiatingEnv 0) sysClosed ttyPath).1 = BP_I2C_ERROR ∧
      (bp_i2c_init (negotiatingEnv 0) sysClosed ttyPath).2.port_fd = sysClosed.port_fd ∧
      (∃ x, (callEvents sysClosed
          (bp_i2c_init (negotiatingEnv 0) sysClosed ttyPath).2).getLast? =
        some (Ev.close ((negotiatingEnv 0).openFd sysClosed.log ttyPath) x)) ∧
      writesOf (callEvents sysClosed (bp_i2c_init (negotiatingEnv 0) sysClosed ttyPath).2) =
        List.replicate 20 0 ::
          (if (readsOf (callEvents sysClosed
              (bp_i2c_init (negotiatingEnv 0) sysClosed ttyPath).2)).head? =
              some (5, some BBIO1)
           then [[0x02, 0x48, 0x60]] else [])) :=
  bp_i2c_init_negotiation (negotiatingEnv 0) sysClosed ttyPath (by decide)
    (negotiatingEnv_accepts 0 _)

/-! ## Unchecked results and the empty payload -/

/-- C8 fails on the code: with `tcgetattr` and `tcsetattr` both returning -1
and an adapter that negotiates correctly, `bp_i2c_init` still returns
`BP_I2C_OK` and records descriptor 3 as the connection; the two results are
stored in `ret` and overwritten unread. -/
theorem bp_i2c_init_ignores_termios_failure :
    bp_i2c_init (negotiatingEnv (-1)) sysClosed ttyPath =
      (BP_I2C_OK,
        { port_fd := 3,
          log := [Ev.opened ttyPath 3, Ev.tcgetattr 3 (-1),
            Ev.tcsetattr 3 { ispeed := 115200, ospeed := 115200, crtscts := false, rest := 0 } (-1),
            Ev.write 3 (List.replicate 20 0) 20, Ev.read 3 5 (some BBIO1),
            Ev.write 3 [0x02, 0x48, 0x60] 3, Ev.read 3 6 (some I2C1)] }) := by
  decide

/-- C3 fails on the code: the `read` after the bulk-write command fails, the
payload write is refused and the `read` after it fails too, yet
`bp_i2c_write(0x77, 0xF4, [0x25], 1)` returns `BP_I2C_OK`, because the loop
never looks at `ret`. -/
theorem bp_i2c_write_ignores_chunk_acks :
    bp_i2c_write brokenChunkEnv sys0 0x77 0xF4 [0x25] 1 =
      (BP_I2C_OK,
        { port_fd := 3,
          log := [Ev.write 3 [0x02, 0x11, 0xEE, 0xF4] 4,
            Ev.read 3 16 (some [0x02, 0x11, 0xEE, 0xF4]),
            Ev.write 3 [0x11] 1, Ev.read 3 16 none,
            Ev.write 3 [0x25] (-1), Ev.read 3 16 none,
            Ev.write 3 [0x03] 1, Ev.read 3 16 (some [0x03])] }) := by
  simp [bp_i2c_write, write_loop_single, write_pass, write_addr_frame, bufTake_one, sys_write,
    sys_read, brokenChunkEnv, echoEnv, sys0, lastWrite, readRet, BP_I2C_OK, BP_I2C_ERROR]

/-- C6 fails on the code: the `read` after the single-byte-read command fails,
yet `bp_i2c_read(0x77, 0xFD, data, 1)` returns `BP_I2C_OK` and stores the
stale `buf[0]`, the first byte `02` of the previous acknowledgment. -/
theorem bp_i2c_read_stores_undelivered_byte :
    bp_i2c_read noDataEnv sys0 0x77 0xFD 1 =
      (BP_I2C_OK, [0x02],
        { port_fd := 3,
          log := [Ev.write 3 [0x02, 0x11, 0xEE, 0xFD, 0x03] 5,
            Ev.read 3 16 (some [0x02, 0x11, 0xEE, 0xFD, 0x03]),
            Ev.write 3 [0x02, 0x10, 0xEF] 3, Ev.read 3 16 (some [0x02, 0x10, 0xEF]),
            Ev.write 3 [0x04, 0x06] 2, Ev.read 3 16 none,
            Ev.write 3 [0x04, 0x07, 0x03] 3, Ev.read 3 16 (some [0x04, 0x07, 0x03])] }) := by
  decide

/-- C10 fails on the code: for `len = 0` the `do ... while` body still runs
once, so between the address-select frame and the stop frame the call writes
the command byte `10` and an empty payload, each followed by a read; it
returns `BP_I2C_OK`. -/
theorem bp_i2c_write_empty_payload :
    bp_i2c_write echoEnv sys0 0x77 0xF4 [] 0 =
      (BP_I2C_OK,
        { port_fd := 3,
          log := [Ev.write 3 [0x02, 0x11, 0xEE, 0xF4] 4,
            Ev.read 3 16 (some [0x02, 0x11, 0xEE, 0xF4]),
            Ev.write 3 [0x10] 1, Ev.read 3 16 (some [0x10]),
            Ev.write 3 [] 0, Ev.read 3 16 (some []),
            Ev.write 3 [0x03] 1, Ev.read 3 16 (some [0x03])] }) := by
  simp [bp_i2c_write, write_loop_single, write_pass, write_addr_frame, bufTake_one, sys_write,
    sys_read, echoEnv, sys0, lastWrite, readRet, BP_I2C_OK, BP_I2C_ERROR]
end BusPirate
